import Mathlib

/-!
Shallow embedding of `decorators.py` from the wrapt repository: the
decorator-construction toolkit.  Python dicts of parameters are modelled as
association lists `List (String × α)` with unique keys (the key-uniqueness
invariant of a dict appears as a `Nodup` hypothesis where a proof needs it);
exceptions are modelled with `Except`.
-/

set_option autoImplicit false

namespace Wrapt

/-- Identity metadata attributes of a Python object: the values of
`__module__`, `__name__` and `__qualname__`.  `none` models an absent
attribute (reading it raises `AttributeError`). -/
structure FuncMeta where
  module : Option String
  name : Option String
  qualname : Option String
deriving Repr, DecidableEq

/-- A user's wrapper behavior function, as the builder sees it: its identity
metadata (plain functions always carry all three attributes) and its declared
argument list, in declaration order, as returned by `getargspec(wrapper).args`.
`α` is the type of parameter values. -/
structure WrapperBehavior (α : Type) where
  name : String
  qualname : String
  module : String
  arglist : List String
deriving Repr, DecidableEq

/-- The metadata that `functools.wraps(wrapper)` copies onto a helper
function: the behavior's own module, name and qualified name. -/
def behaviorMeta {α : Type} (w : WrapperBehavior α) : FuncMeta :=
  ⟨some w.module, some w.name, some w.qualname⟩

/-- Python `k in d` for a dict modelled as an association list. -/
def dictContains {α : Type} (d : List (String × α)) (k : String) : Bool :=
  d.any (fun p => p.1 == k)

/-- Python `d[k] = v`: overwrite the value if the key is present, otherwise
append the new binding at the end (insertion order). -/
def dictInsert {α : Type} (d : List (String × α)) (k : String) (v : α) :
    List (String × α) :=
  if dictContains d k then d.map (fun p => if p.1 == k then (k, v) else p)
  else d ++ [(k, v)]

/-- Python `d.update(e)`: insert every binding of `e` into `d`, in order. -/
def dictUpdate {α : Type} (d e : List (String × α)) : List (String × α) :=
  e.foldl (fun acc p => dictInsert acc p.1 p.2) d

/-- Python `d.keys()`. -/
def dictKeys {α : Type} (d : List (String × α)) : List String :=
  d.map Prod.fst

/-- The data carried by the message of an `UnexpectedParameters` exception:
the three distinct raise sites format three distinct messages. -/
inductive UnexpectedReason where
  | tooManyPositional (expected received : Nat) (decorator : String)
  | unknownKeywords (names : List String) (decorator : String)
  | positionalAlsoKeyword (name : String) (decorator : String)
deriving Repr, DecidableEq

/-- The exceptions raised by `decorators.py`, with the data carried in their
messages.  `indexError` models the Python built-in `IndexError` that
`expected_names[i]` would raise out of bounds (unreachable behind the
positional-count guard). -/
inductive DecoratorError where
  | missingDefaultParameter (name : String) (decorator : String)
  | unexpectedDefaultParameters (names : List String) (decorator : String)
  | unexpectedParameters (reason : UnexpectedReason)
  | indexError
deriving Repr, DecidableEq

/-- `WRAPPER_ARGLIST`: the four fixed parameter names every wrapper behavior
must begin with. -/
def WRAPPER_ARGLIST : List String := ["wrapped", "instance", "args", "kwargs"]

/-- The loop `for name in expected_names: received_names.remove(name)` of the
builder: walk the expected names in order, removing each from the working copy
of the received default keys; a name absent from the working copy raises
`MissingDefaultParameter`.  Returns the keys that remain. -/
def checkExpected (wname : String) :
    List String → List String → Except DecoratorError (List String)
  | [], received => .ok received
  | n :: ns, received =>
      if n ∈ received then checkExpected wname ns (received.erase n)
      else .error (.missingDefaultParameter n wname)

/-- The definition-time validation of lines 62-75 of `decorators.py`: every
expected name must be matched by a received default key, and no received key
may remain unmatched. -/
def validateDefaults (wname : String) (expectedNames receivedNames : List String) :
    Except DecoratorError Unit :=
  match checkExpected wname expectedNames receivedNames with
  | .error e => .error e
  | .ok rest =>
      if rest = [] then .ok ()
      else .error (.unexpectedDefaultParameters rest wname)

/-- The positional-translation loop of `_partial`
(`for i, arg in enumerate(decorator_args): ...`): assign each positional
argument to the expected name at its index, failing if that name is already a
key of the (progressively extended) keyword-argument dict. -/
def assignPositional {α : Type} (wname : String) :
    List String → List α → List (String × α) →
      Except DecoratorError (List (String × α))
  | _, [], kwargs => .ok kwargs
  | [], _ :: _, _ => .error .indexError
  | n :: ns, a :: as, kwargs =>
      if dictContains kwargs n then
        .error (.unexpectedParameters (.positionalAlsoKeyword n wname))
      else assignPositional wname ns as (dictInsert kwargs n a)

/-- The parameter merge performed by `_partial` (lines 104-130): guard the
positional count, reject unknown keyword names, translate positionals to
keywords, and overlay the result on a fresh copy of the defaults. -/
def mergeParams {α : Type} (wname : String) (expectedNames : List String)
    (defaultParams : List (String × α)) (decoratorArgs : List α)
    (decoratorKwargs : List (String × α)) :
    Except DecoratorError (List (String × α)) :=
  if decoratorArgs.length > expectedNames.length then
    .error (.unexpectedParameters
      (.tooManyPositional expectedNames.length decoratorArgs.length wname))
  else
    let unexpectedParams :=
      (dictKeys decoratorKwargs).filter (fun k => ! dictContains defaultParams k)
    if unexpectedParams = [] then
      match assignPositional wname expectedNames decoratorArgs decoratorKwargs with
      | .error e => .error e
      | .ok kwargs2 => .ok (dictUpdate defaultParams kwargs2)
    else
      .error (.unexpectedParameters (.unknownKeywords unexpectedParams wname))

/-- Modelled from the spec: the wrapper construct (`FunctionWrapper`, imported
from the repository's `wrappers` module, whose source is not among the analysed
files).  Per the spec it owns the wrapped target, the wrapper behavior and the
optional complete parameter set, and its identity attributes (defining module,
short name, qualified name) are established from the wrapped target via the
normal wrapping relationship. -/
structure FunctionWrapper (α : Type) where
  wrapped : FuncMeta
  wrapperName : String
  params : Option (List (String × α))
  meta : FuncMeta
deriving Repr, DecidableEq

/-- The construction `FunctionWrapper(wrapped=func, wrapper=wrapper, params=...)`:
identity metadata starts out as the wrapped function's (spec §4.5: values
established via the normal wrapping relationship). -/
def FunctionWrapper.make {α : Type} (func : FuncMeta) (w : WrapperBehavior α)
    (params : Option (List (String × α))) : FunctionWrapper α :=
  ⟨func, w.name, params, func⟩

/-- `_update_adapter(wrapper, target)`: for each of `__module__`, `__name__`,
`__qualname__`, if the target possesses the attribute, copy its value onto the
wrapper construct, overwriting; an absent attribute (`AttributeError`) leaves
the wrapper's value untouched. -/
def _update_adapter {α : Type} (wrapper : FunctionWrapper α) (target : FuncMeta) :
    FunctionWrapper α :=
  { wrapper with
    meta :=
      { module := match target.module with
          | some v => some v
          | none => wrapper.meta.module
        name := match target.name with
          | some v => some v
          | none => wrapper.meta.name
        qualname := match target.qualname with
          | some v => some v
          | none => wrapper.meta.qualname } }

/-- The closure data of the no-parameter decorator shape (`_wrapper` of lines
152-158): the behavior, the optional adapter target, and the identity metadata
that `@wraps(wrapper)` placed on the returned callable. -/
structure DirectDecorator (α : Type) where
  wrapper : WrapperBehavior α
  target : Option FuncMeta
  meta : FuncMeta
deriving Repr, DecidableEq

/-- The closure data of the parameter-collecting decorator shape (`_partial`
of lines 90-146): the behavior, the optional adapter target, the validated
defaults, the expected extra names, and the identity metadata that
`@wraps(wrapper)` placed on the returned callable. -/
structure StagedDecorator (α : Type) where
  wrapper : WrapperBehavior α
  target : Option FuncMeta
  defaultParams : List (String × α)
  expectedNames : List String
  meta : FuncMeta
deriving Repr, DecidableEq

/-- What the `decorator` factory returns when it does not raise: one of the
two decorator shapes, or (when the behavior was not supplied) the deferred
builder `partial(decorator, target=target, **default_params)`, represented by
the arguments it captures. -/
inductive DecoratorShape (α : Type) where
  | direct (d : DirectDecorator α)
  | staged (d : StagedDecorator α)
  | deferred (target : Option FuncMeta) (defaults : List (String × α))
deriving Repr, DecidableEq

/-- Applying the no-parameter shape to a function: construct the wrapper
construct with no parameter set, propagate adapter metadata if a target was
given, and return the construct. -/
def DirectDecorator.applyTo {α : Type} (d : DirectDecorator α) (func : FuncMeta) :
    FunctionWrapper α :=
  let result := FunctionWrapper.make func d.wrapper none
  match d.target with
  | some t => _update_adapter result t
  | none => result

/-- The first stage of applying the parameterized shape: `_partial` called
with the decoration-site arguments computes the complete parameter set (or
raises). -/
def StagedDecorator.applyParams {α : Type} (d : StagedDecorator α)
    (decoratorArgs : List α) (decoratorKwargs : List (String × α)) :
    Except DecoratorError (List (String × α)) :=
  mergeParams d.wrapper.name d.expectedNames d.defaultParams decoratorArgs
    decoratorKwargs

/-- The second stage of applying the parameterized shape: the inner `_wrapper`
(lines 135-141) applied to the target function, with the already-merged
complete parameter set. -/
def StagedDecorator.applyTo {α : Type} (d : StagedDecorator α)
    (completeParams : List (String × α)) (func : FuncMeta) : FunctionWrapper α :=
  let result := FunctionWrapper.make func d.wrapper (some completeParams)
  match d.target with
  | some t => _update_adapter result t
  | none => result

/-- Both stages of the parameterized shape composed: `_partial(args, kwargs)`
followed by the returned `_wrapper(func)`. -/
def StagedDecorator.applyFull {α : Type} (d : StagedDecorator α)
    (decoratorArgs : List α) (decoratorKwargs : List (String × α))
    (func : FuncMeta) : Except DecoratorError (FunctionWrapper α) :=
  match d.applyParams decoratorArgs decoratorKwargs with
  | .error e => .error e
  | .ok ps => .ok (d.applyTo ps func)

/-- `expected_names = complete_arglist[len(expected_arglist):]`: the declared
names past the four fixed ones. -/
def expectedNamesOf {α : Type} (w : WrapperBehavior α) : List String :=
  w.arglist.drop WRAPPER_ARGLIST.length

/-- The `decorator` factory (lines 36-167): if the behavior is supplied,
validate the defaults against the expected names and return the staged shape
when the arglist is longer than the fixed four, the direct shape otherwise; if
the behavior is absent, return the deferred builder capturing the target and
the defaults. -/
def decorator {α : Type} (wrapper : Option (WrapperBehavior α))
    (target : Option FuncMeta) (defaultParams : List (String × α)) :
    Except DecoratorError (DecoratorShape α) :=
  match wrapper with
  | some w =>
      match validateDefaults w.name (expectedNamesOf w) (dictKeys defaultParams) with
      | .error e => .error e
      | .ok () =>
          if w.arglist.length > WRAPPER_ARGLIST.length then
            .ok (.staged ⟨w, target, defaultParams, expectedNamesOf w, behaviorMeta w⟩)
          else
            .ok (.direct ⟨w, target, behaviorMeta w⟩)
  | none => .ok (.deferred target defaultParams)

/-- Applying the deferred builder `partial(decorator, target=target,
**default_params)` to the eventual behavior: by the semantics of
`functools.partial`, this is the call `decorator(w, target=target,
**default_params)`. -/
def applyDeferred {α : Type} (target : Option FuncMeta)
    (defaults : List (String × α)) (w : WrapperBehavior α) :
    Except DecoratorError (DecoratorShape α) :=
  decorator (some w) target defaults

/-- The identity metadata of the outer callable the factory returned (absent
for the deferred builder, whose metadata is `functools.partial`'s own). -/
def DecoratorShape.outerMeta {α : Type} : DecoratorShape α → Option FuncMeta
  | .direct d => some d.meta
  | .staged d => some d.meta
  | .deferred _ _ => none

/-- State-passing embedding of one application of `_partial`: the result of
the merge, paired with the decorator's stored state afterwards.  In the source
the merge starts from `complete_params = dict(default_params)` — a fresh copy —
and all subsequent writes target that copy or the per-call keyword dict, so
the stored state comes back unchanged. -/
def stagedApplyState {α : Type} (d : StagedDecorator α) (decoratorArgs : List α)
    (decoratorKwargs : List (String × α)) :
    Except DecoratorError (List (String × α)) × StagedDecorator α :=
  (d.applyParams decoratorArgs decoratorKwargs, d)

/-- Run a whole sequence of decoration-site applications (each succeeding or
failing), threading the decorator's stored state, and return the final state. -/
def runApplications {α : Type} (d : StagedDecorator α)
    (invocations : List (List α × List (String × α))) : StagedDecorator α :=
  invocations.foldl (fun s inv => (stagedApplyState s inv.1 inv.2).2) d

/-! ### Dictionary lemmas -/

theorem dictContains_iff {α : Type} (d : List (String × α)) (k : String) :
    dictContains d k = true ↔ k ∈ dictKeys d := by
  simp only [dictContains, dictKeys, List.any_eq_true, List.mem_map, beq_iff_eq]

theorem dictKeys_dictInsert {α : Type} (d : List (String × α)) (k : String) (v : α) :
    dictKeys (dictInsert d k v) =
      if dictContains d k then dictKeys d else dictKeys d ++ [k] := by
  by_cases h : dictContains d k
  · simp only [dictInsert, h, if_true, dictKeys, List.map_map]
    apply List.map_congr_left
    intro p _
    by_cases hpk : p.1 = k
    · simp [Function.comp, hpk]
    · simp [Function.comp, hpk]
  · simp [dictInsert, h, dictKeys]

theorem mem_keys_dictInsert {α : Type} (d : List (String × α)) (k : String) (v : α)
    (m : String) : m ∈ dictKeys (dictInsert d k v) ↔ m = k ∨ m ∈ dictKeys d := by
  rw [dictKeys_dictInsert]
  by_cases h : dictContains d k
  · have hk := (dictContains_iff d k).mp h
    simp only [h, if_true]
    constructor
    · exact Or.inr
    · rintro (rfl | hm)
      · exact hk
      · exact hm
  · simp [h, List.mem_append, or_comm]

theorem dictContains_dictInsert {α : Type} (d : List (String × α)) (k : String)
    (v : α) (m : String) :
    dictContains (dictInsert d k v) m = true ↔ m = k ∨ dictContains d m = true := by
  rw [dictContains_iff, mem_keys_dictInsert, dictContains_iff]

/-! ### Validation lemmas -/

theorem checkExpected_missing (wname : String) (names : List String) :
    ∀ received : List String, names.Nodup → (∃ n ∈ names, n ∉ received) →
      ∃ n, n ∈ names ∧ n ∉ received ∧
        checkExpected wname names received = .error (.missingDefaultParameter n wname) := by
  induction names with
  | nil => intro received _ h; simp at h
  | cons n0 ns ih =>
      intro received hN h
      obtain ⟨hn0, hns⟩ := List.nodup_cons.mp hN
      by_cases h0 : n0 ∈ received
      · obtain ⟨n, hn, hnr⟩ := h
        have hne : n ≠ n0 := fun e => hnr (e ▸ h0)
        have hnns : n ∈ ns := by
          rcases List.mem_cons.mp hn with rfl | hmem
          · exact absurd rfl hne
          · exact hmem
        have hrec : n ∉ received.erase n0 :=
          fun hm => hnr ((List.mem_erase_of_ne hne).mp hm)
        obtain ⟨m, hm, hmr, heq⟩ := ih (received.erase n0) hns ⟨n, hnns, hrec⟩
        refine ⟨m, List.mem_cons_of_mem _ hm, ?_, ?_⟩
        · intro hmrec
          have hmne : m ≠ n0 := fun e => hn0 (e ▸ hm)
          exact hmr ((List.mem_erase_of_ne hmne).mpr hmrec)
        · simpa [checkExpected, h0] using heq
      · exact ⟨n0, List.mem_cons_self _ _, h0, by simp [checkExpected, h0]⟩

theorem checkExpected_ok (wname : String) (names : List String) :
    ∀ received : List String, names.Nodup → (∀ n ∈ names, n ∈ received) →
      checkExpected wname names received =
        .ok (names.foldl (fun r n => r.erase n) received) := by
  induction names with
  | nil => intro received _ _; rfl
  | cons n0 ns ih =>
      intro received hN hall
      obtain ⟨hn0, hns⟩ := List.nodup_cons.mp hN
      have h0 : n0 ∈ received := hall n0 (List.mem_cons_self _ _)
      have hall' : ∀ n ∈ ns, n ∈ received.erase n0 := by
        intro n hn
        have hne : n ≠ n0 := fun e => hn0 (e ▸ hn)
        exact (List.mem_erase_of_ne hne).mpr (hall n (List.mem_cons_of_mem _ hn))
      simpa [checkExpected, h0] using ih (received.erase n0) hns hall'

theorem mem_foldl_erase (names : List String) :
    ∀ received : List String, received.Nodup → ∀ k : String,
      (k ∈ names.foldl (fun r n => r.erase n) received ↔ k ∈ received ∧ k ∉ names) := by
  induction names with
  | nil => intro received _ k; simp
  | cons n0 ns ih =>
      intro received hR k
      simp only [List.foldl_cons]
      rw [ih (received.erase n0) (hR.erase n0) k, hR.mem_erase_iff]
      simp only [List.mem_cons]
      tauto

theorem nodup_foldl_erase (names : List String) :
    ∀ received : List String, received.Nodup →
      (names.foldl (fun r n => r.erase n) received).Nodup := by
  induction names with
  | nil => intro received hR; exact hR
  | cons n0 ns ih => intro received hR; exact ih (received.erase n0) (hR.erase n0)

theorem validateDefaults_ok (wname : String) (names keys : List String)
    (hN : names.Nodup) (hK : keys.Nodup) (hiff : ∀ n, n ∈ names ↔ n ∈ keys) :
    validateDefaults wname names keys = .ok () := by
  have hok := checkExpected_ok wname names keys hN (fun n hn => (hiff n).mp hn)
  have hrest : names.foldl (fun r n => r.erase n) keys = [] := by
    apply List.eq_nil_iff_forall_not_mem.mpr
    intro k hk
    rw [mem_foldl_erase names keys hK k] at hk
    exact hk.2 ((hiff k).mpr hk.1)
  simp [validateDefaults, hok, hrest]

/-! ### Positional-assignment lemmas -/

theorem dictContains_dictInsert_false {α : Type} (d : List (String × α)) (k : String)
    (v : α) (m : String) :
    dictContains (dictInsert d k v) m = false ↔ m ≠ k ∧ dictContains d m = false := by
  rw [← Bool.not_eq_true, dictContains_dictInsert, ← Bool.not_eq_true]
  tauto

theorem assignPositional_ok {α : Type} (wname : String) (names : List String) :
    ∀ (args : List α) (kwargs : List (String × α)), names.Nodup →
      args.length ≤ names.length →
      (∀ n ∈ names.take args.length, dictContains kwargs n = false) →
      ∃ res, assignPositional wname names args kwargs = .ok res := by
  induction names with
  | nil =>
      intro args kwargs _ hlen _
      have hargs : args = [] := List.eq_nil_of_length_eq_zero (Nat.le_zero.mp hlen)
      subst hargs
      exact ⟨kwargs, rfl⟩
  | cons n0 ns ih =>
      intro args kwargs hN hlen hfree
      obtain ⟨hn0, hns⟩ := List.nodup_cons.mp hN
      match args with
      | [] => exact ⟨kwargs, rfl⟩
      | a :: as =>
          rw [List.length_cons, List.take_succ_cons] at hfree
          have h0 : dictContains kwargs n0 = false :=
            hfree n0 (List.mem_cons_self _ _)
          have hfree' : ∀ n ∈ ns.take as.length,
              dictContains (dictInsert kwargs n0 a) n = false := by
            intro n hn
            have hne : n ≠ n0 := fun e => hn0 (e ▸ List.mem_of_mem_take hn)
            exact (dictContains_dictInsert_false kwargs n0 a n).mpr
              ⟨hne, hfree n (List.mem_cons_of_mem _ hn)⟩
          have hlen' : as.length ≤ ns.length := by
            rw [List.length_cons, List.length_cons] at hlen
            omega
          obtain ⟨res, hres⟩ := ih as (dictInsert kwargs n0 a) hns hlen' hfree'
          exact ⟨res, by simp [assignPositional, h0, hres]⟩

theorem assignPositional_err {α : Type} (wname : String) (names : List String) :
    ∀ (args : List α) (kwargs : List (String × α)), names.Nodup →
      (∃ n ∈ names.take args.length, dictContains kwargs n = true) →
      ∃ n, n ∈ names.take args.length ∧ dictContains kwargs n = true ∧
        assignPositional wname names args kwargs =
          .error (.unexpectedParameters (.positionalAlsoKeyword n wname)) := by
  induction names with
  | nil => intro args kwargs _ h; simp at h
  | cons n0 ns ih =>
      intro args kwargs hN h
      obtain ⟨hn0, hns⟩ := List.nodup_cons.mp hN
      match args with
      | [] => simp at h
      | a :: as =>
          rw [List.length_cons, List.take_succ_cons] at h
          by_cases h0 : dictContains kwargs n0 = true
          · refine ⟨n0, ?_, h0, ?_⟩
            · rw [List.length_cons, List.take_succ_cons]
              exact List.mem_cons_self _ _
            · simp [assignPositional, h0]
          · rw [Bool.not_eq_true] at h0
            obtain ⟨n, hn, hc⟩ := h
            have hnns : n ∈ ns.take as.length := by
              rcases List.mem_cons.mp hn with rfl | hmem
              · rw [h0] at hc; cases hc
              · exact hmem
            have hc' : dictContains (dictInsert kwargs n0 a) n = true :=
              (dictContains_dictInsert kwargs n0 a n).mpr (Or.inr hc)
            obtain ⟨m, hm, hmc, heq⟩ := ih as (dictInsert kwargs n0 a) hns ⟨n, hnns, hc'⟩
            have hmne : m ≠ n0 := fun e => hn0 (e ▸ List.mem_of_mem_take hm)
            have hmc0 : dictContains kwargs m = true := by
              rcases (dictContains_dictInsert kwargs n0 a m).mp hmc with rfl | hcc
              · exact absurd rfl hmne
              · exact hcc
            refine ⟨m, ?_, hmc0, ?_⟩
            · rw [List.length_cons, List.take_succ_cons]
              exact List.mem_cons_of_mem _ hm
            · simp only [assignPositional, h0, Bool.false_eq_true, if_false]
              exact heq

/-! ### Claim theorems -/

/-- C1: for a parameterized decorator with expected extra names `(a, b)` and
defaults `{a: 1, b: 2}`, the merge step overlays supplied values on the
defaults, mapping the i-th positional argument to the i-th expected name:
no arguments yields `{a:1, b:2}`; positional `(9,)` yields `{a:9, b:2}`;
keyword `a=9` yields `{a:9, b:2}`. -/
theorem claim1_merge_overlay_examples :
    mergeParams "wrapper" ["a", "b"] [("a", 1), ("b", 2)] ([] : List Nat) [] =
        .ok [("a", 1), ("b", 2)]
    ∧ mergeParams "wrapper" ["a", "b"] [("a", 1), ("b", 2)] [9] [] =
        .ok [("a", 9), ("b", 2)]
    ∧ mergeParams "wrapper" ["a", "b"] [("a", 1), ("b", 2)] [] [("a", 9)] =
        .ok [("a", 9), ("b", 2)] :=
  ⟨rfl, rfl, rfl⟩

/-- C7: invoking the builder without the wrapper behavior returns the deferred
builder capturing the defaults and the adapter target, and applying that
deferred builder to a behavior gives exactly the same result (validation
outcome and decorator alike) as invoking the builder directly with the
behavior and the same defaults and adapter. -/
theorem claim7_deferred_builder_equiv (α : Type) (target : Option FuncMeta)
    (defaults : List (String × α)) (w : WrapperBehavior α) :
    decorator (none : Option (WrapperBehavior α)) target defaults =
        .ok (.deferred target defaults)
    ∧ applyDeferred target defaults w = decorator (some w) target defaults :=
  ⟨rfl, rfl⟩

/-- C9: the validated default parameter set is never mutated after decorator
definition: every application overlays supplied values on a fresh copy of the
defaults, so after any sequence of applications (succeeding or failing) the
decorator's stored state is unchanged, and a later application yields exactly
what the same application on the freshly built decorator yields. -/
theorem claim9_defaults_immutable (α : Type) (d : StagedDecorator α)
    (invocations : List (List α × List (String × α)))
    (args : List α) (kwargs : List (String × α)) :
    runApplications d invocations = d
    ∧ (runApplications d invocations).applyParams args kwargs =
        d.applyParams args kwargs := by
  have h : runApplications d invocations = d := by
    induction invocations with
    | nil => rfl
    | cons i is ih =>
        have hstep : runApplications d (i :: is) = runApplications d is := rfl
        rw [hstep, ih]
  exact ⟨h, by rw [h]⟩

/-- C10: a wrapper behavior declaring fewer than four parameters with an empty
default set builds successfully: the derived extra names are empty (the slice
past the four fixed names yields nothing) and the direct no-parameter shape is
returned — the count of the fixed parameter prefix is never validated. -/
theorem claim10_short_arglist_succeeds (α : Type) (w : WrapperBehavior α)
    (target : Option FuncMeta) (h : w.arglist.length < 4) :
    expectedNamesOf w = []
    ∧ decorator (some w) target ([] : List (String × α)) =
        .ok (.direct ⟨w, target, behaviorMeta w⟩) := by
  have he : expectedNamesOf w = [] := by
    apply List.drop_eq_nil_of_le
    show w.arglist.length ≤ WRAPPER_ARGLIST.length
    simp only [WRAPPER_ARGLIST, List.length_cons, List.length_nil]
    omega
  refine ⟨he, ?_⟩
  have hv : validateDefaults w.name (expectedNamesOf w)
      (dictKeys ([] : List (String × α))) = .ok () := by
    simp [he, validateDefaults, checkExpected, dictKeys]
  have hlen : ¬ (w.arglist.length > WRAPPER_ARGLIST.length) := by
    simp only [WRAPPER_ARGLIST, List.length_cons, List.length_nil]
    omega
  simp [decorator, hv, hlen]

/-- Witness for C10 at a concrete behavior with a one-name arglist. -/
theorem claim10_witness :
    expectedNamesOf (⟨"w", "mod.w", "mod", ["wrapped"]⟩ : WrapperBehavior Nat) = []
    ∧ decorator (some (⟨"w", "mod.w", "mod", ["wrapped"]⟩ : WrapperBehavior Nat))
        none [] =
        .ok (.direct ⟨⟨"w", "mod.w", "mod", ["wrapped"]⟩, none,
          behaviorMeta (⟨"w", "mod.w", "mod", ["wrapped"]⟩ : WrapperBehavior Nat)⟩) :=
  claim10_short_arglist_succeeds Nat ⟨"w", "mod.w", "mod", ["wrapped"]⟩ none
    (by decide)

theorem mergeParams_unexpected_iff {α : Type} (wname : String) (en : List String)
    (dp : List (String × α)) (args : List α) (kwargs : List (String × α))
    (hN : en.Nodup) :
    (∃ r, mergeParams wname en dp args kwargs = .error (.unexpectedParameters r)) ↔
      (en.length < args.length
        ∨ (∃ k ∈ dictKeys kwargs, dictContains dp k = false)
        ∨ (∃ n ∈ en.take args.length, dictContains kwargs n = true)) := by
  by_cases hlen : en.length < args.length
  · constructor
    · intro _
      exact Or.inl hlen
    · intro _
      exact ⟨.tooManyPositional en.length args.length wname,
        by simp [mergeParams, hlen]⟩
  · have hfilter_iff : ∀ k, k ∈ (dictKeys kwargs).filter (fun k => ! dictContains dp k)
        ↔ (k ∈ dictKeys kwargs ∧ dictContains dp k = false) := by
      intro k
      rw [List.mem_filter]
      simp [Bool.not_eq_true']
    by_cases hU : (dictKeys kwargs).filter (fun k => ! dictContains dp k) = []
    · have hmid : ¬ (∃ k ∈ dictKeys kwargs, dictContains dp k = false) := by
        rintro ⟨k, hk, hc⟩
        have hkm := (hfilter_iff k).mpr ⟨hk, hc⟩
        rw [hU] at hkm
        cases hkm
      by_cases hcol : ∃ n ∈ en.take args.length, dictContains kwargs n = true
      · obtain ⟨m, _, _, heq⟩ := assignPositional_err wname en args kwargs hN hcol
        refine iff_of_true ?_ (Or.inr (Or.inr hcol))
        exact ⟨.positionalAlsoKeyword m wname, by simp [mergeParams, hlen, hU, heq]⟩
      · have hfree : ∀ n ∈ en.take args.length, dictContains kwargs n = false := by
          intro n hn
          rw [← Bool.not_eq_true]
          exact fun hc => hcol ⟨n, hn, hc⟩
        obtain ⟨res, hres⟩ :=
          assignPositional_ok wname en args kwargs hN (Nat.le_of_not_lt hlen) hfree
        refine iff_of_false ?_ ?_
        · rintro ⟨r, hr⟩
          simp [mergeParams, hlen, hU, hres] at hr
        · rintro (h | h | h)
          · exact hlen h
          · exact hmid h
          · exact hcol h
    · obtain ⟨k, hk⟩ := List.exists_mem_of_ne_nil _ hU
      obtain ⟨hk1, hk2⟩ := (hfilter_iff k).mp hk
      refine iff_of_true ?_ (Or.inr (Or.inl ⟨k, hk1, hk2⟩))
      exact ⟨.unknownKeywords
          ((dictKeys kwargs).filter (fun k => ! dictContains dp k)) wname,
        by simp [mergeParams, hlen, hU]⟩

/-- C5: applying a parameterized decorator raises `UnexpectedParameters` at the
moment the decorator is applied with parameters, in exactly these cases: more
positional arguments than expected extra names, a keyword argument name absent
from the default set, or a parameter supplied both positionally (among the
first `args.length` expected names) and as a keyword. -/
theorem claim5_unexpected_parameters_exactly (α : Type) (d : StagedDecorator α)
    (args : List α) (kwargs : List (String × α)) (hN : d.expectedNames.Nodup) :
    (∃ r, d.applyParams args kwargs = .error (.unexpectedParameters r)) ↔
      (d.expectedNames.length < args.length
        ∨ (∃ k ∈ dictKeys kwargs, dictContains d.defaultParams k = false)
        ∨ (∃ n ∈ d.expectedNames.take args.length, dictContains kwargs n = true)) :=
  mergeParams_unexpected_iff d.wrapper.name d.expectedNames d.defaultParams args
    kwargs hN

/-- Witness for C5: three positional arguments against two expected names make
the application fail with `UnexpectedParameters`. -/
theorem claim5_witness :
    ∃ r, StagedDecorator.applyParams
        (⟨⟨"w", "m.w", "m", ["wrapped", "instance", "args", "kwargs", "a", "b"]⟩,
          none, [("a", 1), ("b", 2)], ["a", "b"],
          ⟨some "m", some "w", some "m.w"⟩⟩ : StagedDecorator Nat)
        [9, 8, 7] [] = .error (.unexpectedParameters r) :=
  (claim5_unexpected_parameters_exactly Nat
      ⟨⟨"w", "m.w", "m", ["wrapped", "instance", "args", "kwargs", "a", "b"]⟩,
        none, [("a", 1), ("b", 2)], ["a", "b"],
        ⟨some "m", some "w", some "m.w"⟩⟩
      [9, 8, 7] [] (by decide)).mpr (Or.inl (by decide))

/-- C3: a wrapper behavior declaring an extra parameter whose name is absent
from the supplied default set fails at decorator-definition time with
`MissingDefaultParameter`, naming a missing expected parameter and the
behavior. -/
theorem claim3_missing_default_parameter (α : Type) (w : WrapperBehavior α)
    (target : Option FuncMeta) (dp : List (String × α))
    (hN : (expectedNamesOf w).Nodup)
    (h : ∃ n ∈ expectedNamesOf w, n ∉ dictKeys dp) :
    ∃ n, n ∈ expectedNamesOf w ∧ n ∉ dictKeys dp ∧
      decorator (some w) target dp = .error (.missingDefaultParameter n w.name) := by
  obtain ⟨n, hn, hnr, heq⟩ :=
    checkExpected_missing w.name (expectedNamesOf w) (dictKeys dp) hN h
  exact ⟨n, hn, hnr, by simp [decorator, validateDefaults, heq]⟩

/-- Witness for C3: a behavior with extra name `a` and no defaults. -/
theorem claim3_witness :
    ∃ n, n ∈ expectedNamesOf
        (⟨"w", "m.w", "m", ["wrapped", "instance", "args", "kwargs", "a"]⟩ :
          WrapperBehavior Nat)
      ∧ n ∉ dictKeys ([] : List (String × Nat))
      ∧ decorator
          (some (⟨"w", "m.w", "m", ["wrapped", "instance", "args", "kwargs", "a"]⟩ :
            WrapperBehavior Nat)) none [] =
          .error (.missingDefaultParameter n "w") :=
  claim3_missing_default_parameter Nat
    ⟨"w", "m.w", "m", ["wrapped", "instance", "args", "kwargs", "a"]⟩ none []
    (by decide) (by decide)

/-- C4: when every expected extra name has a default but the default set has
surplus keys, building fails at decorator-definition time with
`UnexpectedDefaultParameters` naming exactly the surplus keys. -/
theorem claim4_unexpected_default_parameters (α : Type) (w : WrapperBehavior α)
    (target : Option FuncMeta) (dp : List (String × α))
    (hN : (expectedNamesOf w).Nodup) (hK : (dictKeys dp).Nodup)
    (hall : ∀ n ∈ expectedNamesOf w, n ∈ dictKeys dp)
    (hsur : ∃ k ∈ dictKeys dp, k ∉ expectedNamesOf w) :
    ∃ surplus, decorator (some w) target dp =
        .error (.unexpectedDefaultParameters surplus w.name)
      ∧ surplus ≠ []
      ∧ ∀ k, (k ∈ surplus ↔ k ∈ dictKeys dp ∧ k ∉ expectedNamesOf w) := by
  have hok := checkExpected_ok w.name (expectedNamesOf w) (dictKeys dp) hN hall
  have hmem : ∀ k, k ∈ (expectedNamesOf w).foldl (fun r n => r.erase n) (dictKeys dp)
      ↔ (k ∈ dictKeys dp ∧ k ∉ expectedNamesOf w) :=
    fun k => mem_foldl_erase (expectedNamesOf w) (dictKeys dp) hK k
  have hne : (expectedNamesOf w).foldl (fun r n => r.erase n) (dictKeys dp) ≠ [] := by
    obtain ⟨k, hk1, hk2⟩ := hsur
    intro hnil
    have hkm := (hmem k).mpr ⟨hk1, hk2⟩
    rw [hnil] at hkm
    cases hkm
  exact ⟨_, by simp [decorator, validateDefaults, hok, hne], hne, hmem⟩

/-- Witness for C4: expected name `a`, defaults for `a` and a surplus `c`. -/
theorem claim4_witness :
    ∃ surplus, decorator
        (some (⟨"w", "m.w", "m", ["wrapped", "instance", "args", "kwargs", "a"]⟩ :
          WrapperBehavior Nat)) none [("a", 1), ("c", 2)] =
        .error (.unexpectedDefaultParameters surplus "w")
      ∧ surplus ≠ []
      ∧ ∀ k, (k ∈ surplus ↔ k ∈ dictKeys [("a", 1), ("c", 2)]
          ∧ k ∉ expectedNamesOf
              (⟨"w", "m.w", "m", ["wrapped", "instance", "args", "kwargs", "a"]⟩ :
                WrapperBehavior Nat)) :=
  claim4_unexpected_default_parameters Nat
    ⟨"w", "m.w", "m", ["wrapped", "instance", "args", "kwargs", "a"]⟩ none
    [("a", 1), ("c", 2)] (by decide) (by decide) (by decide) (by decide)

/-- C2: once the defaults validate, the factory returns exactly one of two
shapes, chosen by whether any extra parameter names exist: with none, the
direct one-argument decorator (which constructs the wrapper construct with no
parameter set and propagates adapter metadata when a target was given); with
one or more, the staged decorator that must first collect the decoration-site
arguments and merge them with the defaults before accepting the function. -/
theorem claim2_factory_two_shapes (α : Type) (w : WrapperBehavior α)
    (target : Option FuncMeta) (dp : List (String × α))
    (hv : validateDefaults w.name (expectedNamesOf w) (dictKeys dp) = .ok ()) :
    (expectedNamesOf w = [] →
        decorator (some w) target dp = .ok (.direct ⟨w, target, behaviorMeta w⟩))
    ∧ (expectedNamesOf w ≠ [] →
        decorator (some w) target dp =
          .ok (.staged ⟨w, target, dp, expectedNamesOf w, behaviorMeta w⟩)) := by
  constructor
  · intro he
    have hlen0 := congrArg List.length he
    rw [expectedNamesOf, List.length_drop, List.length_nil] at hlen0
    have hlen : ¬ (w.arglist.length > WRAPPER_ARGLIST.length) := by omega
    simp [decorator, hv, hlen]
  · intro hne
    have hlen0 : (expectedNamesOf w).length ≠ 0 :=
      fun h => hne (List.eq_nil_of_length_eq_zero h)
    rw [expectedNamesOf, List.length_drop] at hlen0
    have hlen : w.arglist.length > WRAPPER_ARGLIST.length := by omega
    simp [decorator, hv, hlen]

/-- Witness for C2 on the parameterless side: a behavior with exactly the four
fixed names and no defaults produces the direct shape. -/
theorem claim2_witness :
    decorator
        (some (⟨"w", "m.w", "m", ["wrapped", "instance", "args", "kwargs"]⟩ :
          WrapperBehavior Nat)) none [] =
      .ok (.direct ⟨⟨"w", "m.w", "m", ["wrapped", "instance", "args", "kwargs"]⟩,
        none,
        behaviorMeta (⟨"w", "m.w", "m", ["wrapped", "instance", "args", "kwargs"]⟩ :
          WrapperBehavior Nat)⟩) :=
  (claim2_factory_two_shapes Nat
      ⟨"w", "m.w", "m", ["wrapped", "instance", "args", "kwargs"]⟩ none [] rfl).1 rfl

/-- C8: when the extra parameter names exactly match the supplied default keys,
building succeeds, and the outer callable the factory returns carries the
behavior's own identity metadata — its name, qualified name and module are the
behavior's, not an anonymous helper's. -/
theorem claim8_building_succeeds_with_identity (α : Type) (w : WrapperBehavior α)
    (target : Option FuncMeta) (dp : List (String × α))
    (hN : (expectedNamesOf w).Nodup) (hK : (dictKeys dp).Nodup)
    (hiff : ∀ n, n ∈ expectedNamesOf w ↔ n ∈ dictKeys dp) :
    ∃ s, decorator (some w) target dp = .ok s
      ∧ DecoratorShape.outerMeta s = some (behaviorMeta w) := by
  have hv := validateDefaults_ok w.name (expectedNamesOf w) (dictKeys dp) hN hK hiff
  by_cases hlen : w.arglist.length > WRAPPER_ARGLIST.length
  · exact ⟨.staged ⟨w, target, dp, expectedNamesOf w, behaviorMeta w⟩,
      by simp [decorator, hv, hlen], rfl⟩
  · exact ⟨.direct ⟨w, target, behaviorMeta w⟩, by simp [decorator, hv, hlen], rfl⟩

/-- Witness for C8: extra name `a` matched exactly by the default set. -/
theorem claim8_witness :
    ∃ s, decorator
        (some (⟨"w", "m.w", "m", ["wrapped", "instance", "args", "kwargs", "a"]⟩ :
          WrapperBehavior Nat)) none [("a", 1)] = .ok s
      ∧ DecoratorShape.outerMeta s =
          some (behaviorMeta
            (⟨"w", "m.w", "m", ["wrapped", "instance", "args", "kwargs", "a"]⟩ :
              WrapperBehavior Nat)) :=
  claim8_building_succeeds_with_identity Nat
    ⟨"w", "m.w", "m", ["wrapped", "instance", "args", "kwargs", "a"]⟩ none
    [("a", 1)] (by decide) (by decide) (fun n => by simp [expectedNamesOf, dictKeys, WRAPPER_ARGLIST])

/-- The identity metadata the wrapper construct ends up with when an adapter
target was given: each attribute the target possesses, taken from the target;
each attribute it lacks, kept from the wrapped function. -/
def adapterResultMeta {α : Type} (w : WrapperBehavior α) (t func : FuncMeta) :
    FuncMeta :=
  (_update_adapter (FunctionWrapper.make func w (none : Option (List (String × α)))) t).meta

/-- C6: with an adapter target, metadata propagation copies each of the three
identity attributes the target possesses onto the wrapper construct,
overwriting the value established from the wrapped function, and leaves each
attribute the target lacks untouched; both decorator shapes propagate the same
way, and a target possessing all three makes the construct report exactly the
adapter's identity. -/
theorem claim6_adapter_metadata (α : Type) (w : WrapperBehavior α)
    (t func : FuncMeta) (dp ps : List (String × α)) (en : List String) :
    (DirectDecorator.applyTo ⟨w, some t, behaviorMeta w⟩ func).meta =
        adapterResultMeta (α := α) w t func
    ∧ (StagedDecorator.applyTo ⟨w, some t, dp, en, behaviorMeta w⟩ ps func).meta =
        adapterResultMeta (α := α) w t func
    ∧ (∀ v, t.module = some v → (adapterResultMeta (α := α) w t func).module = some v)
    ∧ (t.module = none → (adapterResultMeta (α := α) w t func).module = func.module)
    ∧ (∀ v, t.name = some v → (adapterResultMeta (α := α) w t func).name = some v)
    ∧ (t.name = none → (adapterResultMeta (α := α) w t func).name = func.name)
    ∧ (∀ v, t.qualname = some v → (adapterResultMeta (α := α) w t func).qualname = some v)
    ∧ (t.qualname = none → (adapterResultMeta (α := α) w t func).qualname = func.qualname)
    ∧ (∀ a b c, t = ⟨some a, some b, some c⟩ →
        adapterResultMeta (α := α) w t func = t) := by
  refine ⟨rfl, rfl, ?_, ?_, ?_, ?_, ?_, ?_, ?_⟩
  · intro v h
    simp [adapterResultMeta, _update_adapter, FunctionWrapper.make, h]
  · intro h
    simp [adapterResultMeta, _update_adapter, FunctionWrapper.make, h]
  · intro v h
    simp [adapterResultMeta, _update_adapter, FunctionWrapper.make, h]
  · intro h
    simp [adapterResultMeta, _update_adapter, FunctionWrapper.make, h]
  · intro v h
    simp [adapterResultMeta, _update_adapter, FunctionWrapper.make, h]
  · intro h
    simp [adapterResultMeta, _update_adapter, FunctionWrapper.make, h]
  · intro a b c h
    subst h
    simp [adapterResultMeta, _update_adapter, FunctionWrapper.make]

/-- Witness for C6: an adapter possessing all three attributes donates its
whole identity to the construct. -/
theorem claim6_witness :
    adapterResultMeta (α := Nat)
        ⟨"w", "m.w", "m", ["wrapped", "instance", "args", "kwargs"]⟩
        ⟨some "amod", some "aname", some "aqual"⟩
        ⟨some "fmod", some "fname", some "fqual"⟩ =
      ⟨some "amod", some "aname", some "aqual"⟩ :=
  (claim6_adapter_metadata Nat
      ⟨"w", "m.w", "m", ["wrapped", "instance", "args", "kwargs"]⟩
      ⟨some "amod", some "aname", some "aqual"⟩
      ⟨some "fmod", some "fname", some "fqual"⟩
      [] [] []).2.2.2.2.2.2.2.2 "amod" "aname" "aqual" rfl

end Wrapt
